import Mathlib

/-!
# Verification of the hamilton-composer configuration engine

A shallow embedding of `hamilton_composer/composer.py` (class `HamiltonComposer`):
configuration-path resolution (`_resolve_config_path`), directory/file tree loading
(`_load_config_from_path`), dotlist override parsing and merging (`load_config`,
via OmegaConf `from_dotlist` / `merge`), and the deprecated-alias argument handling
(`config_file` / `filepath`).

Configuration trees (`ConfigNode` in the data model) are modelled by `HC.Value`:
scalars (null, bool, int, string), sequences, and mappings represented as ordered
association lists (Python `dict` preserves insertion order; keys of real
configuration mappings are unique).

The OmegaConf calls made by the source are embedded as Lean functions whose
behaviour follows the library the source calls into (OmegaConf 2.3 untyped
configs, as pinned by the source's docstrings):
* `OmegaConf.merge` node semantics (`BaseContainer._map_merge`): mapping with
  mapping merges key-by-key recursively, a sequence merged with a sequence
  replaces the contents, and every other pairing replaces the left node by the
  right node.  (Top-level merge of a mapping with a sequence raises in the
  library; `load_config` only ever merges mapping-rooted trees, which is what we
  model.)
* `OmegaConf.from_dotlist` / `OmegaConf.update`: split at the first `=`, YAML-parse
  the value, split the key on `.`, walk/create intermediate mappings (a
  non-container intermediate is replaced by an empty mapping), and set or merge at
  the final segment.
* YAML scalar resolution (`yaml.load` of the value text) is modelled for the
  scalar forms exercised here: empty/`null`/`~` → null, `true`/`false` → bool,
  optionally-signed digit strings → int, anything else → the string itself.
  Interpolation resolution (`${...}`) is not modelled; the trees considered here
  contain no interpolations.
* `OmegaConf.merge(structured_default, composed)` (line 163) runs in struct
  mode: a composed key outside the schema raises `ConfigKeyError` and a value
  its declared field type cannot convert raises `ValidationError`; otherwise
  each composed key overwrites its field with the converted value.  Schemas are
  modelled with integer- and string-typed fields, every field carrying a
  default.
-/

namespace HC

/-- A configuration tree node: YAML scalars, sequences and mappings.
Mappings are ordered association lists, mirroring Python's insertion-ordered
`dict` (`ConfigNode` of the data model). -/
inductive Value where
  | vnull
  | vbool (b : Bool)
  | vint (n : Int)
  | vstr (s : String)
  | vseq (items : List Value)
  | vmap (entries : List (String × Value))

namespace Value

/-- Is this node a mapping (`DictConfig` / `dict`)? -/
def isMap : Value → Bool
  | .vmap _ => true
  | _ => false

/-- Is this node a sequence (`ListConfig` / `list`)? -/
def isSeq : Value → Bool
  | .vseq _ => true
  | _ => false

/-- Is this node a container (`isinstance(x, Container)` in OmegaConf, i.e. a
mapping or a sequence)? -/
def isContainer (v : Value) : Bool := v.isMap || v.isSeq

end Value

mutual
/-- Structural size of a configuration node (used as recursion fuel for the
merge function; every proper subnode has strictly smaller size). -/
def vsize : Value → Nat
  | .vnull => 1
  | .vbool _ => 1
  | .vint _ => 1
  | .vstr _ => 1
  | .vseq items => 1 + lsize items
  | .vmap entries => 1 + psize entries

/-- Structural size of a node list. -/
def lsize : List Value → Nat
  | [] => 0
  | v :: rest => 1 + vsize v + lsize rest

/-- Structural size of a mapping's entry list. -/
def psize : List (String × Value) → Nat
  | [] => 0
  | (_, v) :: rest => 1 + vsize v + psize rest
end

/-- First-occurrence lookup in an association list (Python `d[k]` /
`DictConfig._get_node(k)`; real mappings have unique keys). -/
def lookup (k : String) : List (String × Value) → Option Value
  | [] => none
  | (k', v) :: rest => if k' = k then some v else lookup k rest

/-- The keys of an association list, in order. -/
def keys (m : List (String × Value)) : List String := m.map Prod.fst

/-- Key-uniqueness invariant of a configuration mapping level
("keys unique within one mapping level"). -/
def NodupKeys (m : List (String × Value)) : Prop := (keys m).Nodup

instance (m : List (String × Value)) : Decidable (NodupKeys m) :=
  inferInstanceAs (Decidable (keys m).Nodup)

/-- Merge a single source entry into a destination mapping: an existing key's
value is combined with the incoming value by the supplied merge function
(instantiated with the recursive node merge); a new key is appended, preserving
insertion order.  This is the per-key body of the `for key in src` loop of
`BaseContainer._map_merge`. -/
def setKeyList (mrg : Value → Value → Value) :
    List (String × Value) → String → Value → List (String × Value)
  | [], k, v => [(k, v)]
  | (k', v') :: rest, k, v =>
    if k' = k then (k', mrg v' v) :: rest else (k', v') :: setKeyList mrg rest k v

/-- Merge every entry of the source mapping (second list) into the destination
mapping, in source order — the `for key in src` loop of `_map_merge`. -/
def mergeIntoL (mrg : Value → Value → Value) (dest src : List (String × Value)) :
    List (String × Value) :=
  src.foldl (fun d kv => setKeyList mrg d kv.1 kv.2) dest

/-- `OmegaConf.merge` on two nodes, untyped-config semantics
(`BaseContainer._map_merge`), written with explicit recursion fuel so that the
definition is structurally recursive (and hence computes): mapping merged with
mapping merges key-by-key recursively; every other pairing — sequence with
sequence, scalar with anything, mapping with sequence, … — is replaced
wholesale by the right operand.  The fuel only ever decreases on nodes of the
right operand, so `vsize` of the right operand is always sufficient
(`omergeF_stable`). -/
def omergeF : Nat → Value → Value → Value
  | 0, _, b => b
  | fuel + 1, a, b =>
    match a, b with
    | .vmap m1, .vmap m2 => .vmap (mergeIntoL (omergeF fuel) m1 m2)
    | _, _ => b

/-- `OmegaConf.merge` on two nodes (see `omergeF`). -/
def omergeVal (a b : Value) : Value := omergeF (vsize b) a b

/-- Plain association-list assignment (`root[last] = value` on a `DictConfig`):
replace the value at the first occurrence of the key, or append a new entry. -/
def setAssoc : List (String × Value) → String → Value → List (String × Value)
  | [], k, v => [(k, v)]
  | (k', v') :: rest, k, v =>
    if k' = k then (k', v) :: rest else (k', v') :: setAssoc rest k v

/-- Split a character list at every occurrence of the separator — Python
`str.split(sep)` semantics for a one-character separator (the empty text splits
to `[""]`, adjacent separators produce empty segments). -/
def splitChars (sep : Char) : List Char → List (List Char)
  | [] => [[]]
  | c :: rest =>
    match splitChars sep rest with
    | [] => [[c]]
    | g :: gs => if c = sep then [] :: g :: gs else (c :: g) :: gs

/-- Split a character list at the first occurrence of the separator, or `none`
when the separator does not occur — Python `arg.find(sep)`. -/
def breakAtChar (sep : Char) : List Char → Option (List Char × List Char)
  | [] => none
  | c :: rest =>
    if c = sep then some ([], rest)
    else
      match breakAtChar sep rest with
      | none => none
      | some (pre, post) => some (c :: pre, post)

/-- Digit-string value accumulator for the integer scalar forms. -/
def digitsValAux : List Char → Nat → Option Nat
  | [], acc => some acc
  | c :: rest, acc =>
    if c.isDigit then digitsValAux rest (acc * 10 + (c.toNat - 48)) else none

/-- The value of a non-empty all-digit character list. -/
def digitsVal : List Char → Option Nat
  | [] => none
  | cs => digitsValAux cs 0

/-- An optionally-minus-signed digit string as an integer. -/
def parseIntChars : List Char → Option Int
  | '-' :: rest => (digitsVal rest).map (fun n => -(n : Int))
  | cs => (digitsVal cs).map Int.ofNat

/-- YAML scalar resolution (`yaml.load` with OmegaConf's loader) restricted to
the scalar forms exercised by dotlist values in this development: empty text and
the null words resolve to null, the boolean words to booleans, optionally-signed
digit strings to integers, and any other text to the string itself. -/
def yamlScalar (s : String) : Value :=
  if s = "" || s = "~" || s = "null" || s = "Null" || s = "NULL" then .vnull
  else if s = "true" || s = "True" || s = "TRUE" then .vbool true
  else if s = "false" || s = "False" || s = "FALSE" then .vbool false
  else
    match parseIntChars s.data with
    | some n => .vint n
    | none => .vstr s

/-- One dotlist argument split as in `DictConfig.merge_with_dotlist`:
`idx = arg.find("=")`; without `=` the whole argument is the key and the value
is null, otherwise the text before the first `=` is the key and the rest is
YAML-parsed as the value. -/
def parseDotArg (arg : String) : String × Value :=
  match breakAtChar '=' arg.data with
  | none => (arg, .vnull)
  | some (pre, post) => (String.mk pre, yamlScalar (String.mk post))

/-- `OmegaConf.update(cfg, key, value)` after the key has been split on `.`:
walk the intermediate segments (an absent or non-container intermediate is
replaced by an empty mapping), and at the final segment merge a container value
into an existing container node, otherwise assign the value.  A sequence
intermediate (kept by the library and then indexed) is not exercised by any
dotlist considered here and is left unchanged. -/
def updateSegs : Value → List String → Value → Value
  | cfg, [], _ => cfg
  | cfg, [last], v =>
    match cfg with
    | .vmap m =>
      let newVal :=
        match lookup last m with
        | some old => if v.isContainer && old.isContainer then omergeVal old v else v
        | none => v
      .vmap (setAssoc m last newVal)
    | _ => cfg
  | cfg, seg :: rest, v => -- rest ≠ [] here
    match cfg with
    | .vmap m =>
      let sub :=
        match lookup seg m with
        | some s => if s.isContainer then s else .vmap []
        | none => .vmap []
      .vmap (setAssoc m seg (updateSegs sub rest v))
    | _ => cfg

/-- `OmegaConf.update(cfg, key, value)`: the key is split on `.`. -/
def ocUpdate (cfg : Value) (key : String) (v : Value) : Value :=
  updateSegs cfg ((splitChars '.' key.data).map String.mk) v

/-- `OmegaConf.from_dotlist(args)`: starting from an empty mapping, apply
`OmegaConf.update` for each argument in order. -/
def fromDotlist (args : List String) : Value :=
  args.foldl (fun cfg arg => ocUpdate cfg (parseDotArg arg).1 (parseDotArg arg).2) (.vmap [])

/-- The override-merging step of `HamiltonComposer.load_config` without a
schema (lines 156–159 and 169–171 of `composer.py`): build the params tree from
the dotlist (`OmegaConf.create()` when the iterable is empty) and merge it over
the file-loaded tree.  `to_container(resolve=True)` is the identity on trees
without interpolations. -/
def loadConfigNoSchema (fileTree : Value) (params : List String) : Value :=
  omergeVal fileTree (if params.isEmpty then .vmap [] else fromDotlist params)

/-- The entries of a mapping node (and `[]` on any other node). -/
def mapEntries : Value → List (String × Value)
  | .vmap m => m
  | _ => []

/-- The scalar field types of a structured schema modelled here: dataclass
fields declared `int` or `str`.  Every modelled field carries a default
(matching the claims' schema-defaults reading); nested structured fields,
`Optional` fields and mandatory-missing (`???`) fields are outside the scope
of the merge-precedence claims. -/
inductive FieldType where
  | tInt
  | tStr
deriving DecidableEq, Repr

/-- One dataclass field of a structured schema: name, declared type, default
value. -/
structure SchemaField where
  name : String
  ftype : FieldType
  default : Value

/-- A structured config schema (a dataclass type): its fields in declaration
order. -/
structure Schema where
  fields : List SchemaField

/-- `OmegaConf.structured(schema)` materialised as its default tree
(field name to default value, in declaration order). -/
def structuredDefaults (s : Schema) : List (String × Value) :=
  s.fields.map (fun f => (f.name, f.default))

/-- The declared type of the schema field a key names, if any. -/
def schemaFieldType (s : Schema) (k : String) : Option FieldType :=
  match s.fields.find? (fun f => f.name == k) with
  | some f => some f.ftype
  | none => none

/-- The validate-and-convert step of omegaconf's typed value nodes for the
modelled field types: an integer field accepts an integer or a digit string
`int()` converts (booleans, null and containers are rejected); a string field
accepts a string and converts integers and booleans via `str()` (null and
containers are rejected).  `none` is the `ValidationError` outcome. -/
def convertTo : FieldType → Value → Option Value
  | .tInt, .vint n => some (.vint n)
  | .tInt, .vstr str => (parseIntChars str.data).map (fun n => .vint n)
  | .tInt, _ => none
  | .tStr, .vstr str => some (.vstr str)
  | .tStr, .vint n => some (.vstr (toString n))
  | .tStr, .vbool b => some (.vstr (if b then "True" else "False"))
  | .tStr, _ => none

/-- The struct-mode errors of merging a composed tree into
`OmegaConf.structured(schema)` at line 163: a composed key not declared in the
schema raises `ConfigKeyError`; a composed value the declared field type
cannot convert raises `ValidationError`. -/
inductive SchemaMergeError where
  | configKeyError (key : String)
  | validationError (key : String) (v : Value)

/-- The `for key in src` loop of `_map_merge` with a struct-mode structured
destination: each source key must name a schema field and its value must
convert to the declared type, then it overwrites that field; otherwise the
struct-mode error is raised. -/
def structMergeLoop (s : Schema) :
    List (String × Value) → List (String × Value) →
      Except SchemaMergeError (List (String × Value))
  | dest, [] => .ok dest
  | dest, (k, v) :: rest =>
    match schemaFieldType s k with
    | none => .error (.configKeyError k)
    | some t =>
      match convertTo t v with
      | none => .error (.validationError k v)
      | some v' => structMergeLoop s (setAssoc dest k v') rest

/-- The merge composition of `HamiltonComposer.load_config` on already-built
trees (lines 156–167 of `composer.py`): the params tree is merged over the
file-loaded tree (untyped merge, line 159); without a schema the composed tree
is the result (lines 169–171); with a schema the composed tree is merged into
`OmegaConf.structured(schema)` in struct mode (line 163) — raising on a key
outside the schema or a value its declared type cannot convert — and the
resulting typed instance is flattened back to its field mapping
(lines 164–167). -/
def loadConfigTrees (schema : Option Schema) (fileTree paramsTree : Value) :
    Except SchemaMergeError Value :=
  let composed := omergeVal fileTree paramsTree
  match schema with
  | some s =>
    (structMergeLoop s (structuredDefaults s) (mapEntries composed)).map Value.vmap
  | none => .ok composed

/-- Merge of two optional per-key values: both present merge recursively, one
present survives, the right one wins structurally (used to state the per-key
behaviour of `_map_merge`). -/
def mergeLook (mrg : Value → Value → Value) : Option Value → Option Value → Option Value
  | some x, some y => some (mrg x y)
  | some x, none => some x
  | none, o => o

/-! ### Merge theory -/

theorem keys_nil : keys [] = [] := rfl

theorem keys_cons (k : String) (v : Value) (tl : List (String × Value)) :
    keys ((k, v) :: tl) = k :: keys tl := rfl

theorem vsize_pos (v : Value) : 1 ≤ vsize v := by
  cases v <;> simp [vsize]

theorem vsize_le_psize_of_mem {m : List (String × Value)} {kv : String × Value}
    (h : kv ∈ m) : vsize kv.2 ≤ psize m := by
  induction m with
  | nil => cases h
  | cons hd tl ih =>
    obtain ⟨k, v⟩ := hd
    rcases List.mem_cons.mp h with h | h
    · subst h
      simp only [psize]
      omega
    · have := ih h
      simp only [psize]
      omega

theorem lookup_eq_none_of_not_mem {k : String} {m : List (String × Value)}
    (h : k ∉ keys m) : lookup k m = none := by
  induction m with
  | nil => rfl
  | cons hd tl ih =>
    obtain ⟨k₀, v₀⟩ := hd
    rw [keys_cons, List.mem_cons] at h
    push_neg at h
    rw [lookup, if_neg (fun he => h.1 he.symm)]
    exact ih h.2

theorem setKeyList_congr {mrg₁ mrg₂ : Value → Value → Value} {v : Value}
    (h : ∀ x, mrg₁ x v = mrg₂ x v) (dest : List (String × Value)) (k : String) :
    setKeyList mrg₁ dest k v = setKeyList mrg₂ dest k v := by
  induction dest with
  | nil => rfl
  | cons hd tl ih =>
    obtain ⟨k', v'⟩ := hd
    by_cases hk : k' = k <;> simp [setKeyList, hk, h, ih]

theorem mergeIntoL_congr {mrg₁ mrg₂ : Value → Value → Value}
    {src : List (String × Value)}
    (h : ∀ kv ∈ src, ∀ x, mrg₁ x kv.2 = mrg₂ x kv.2) :
    ∀ dest, mergeIntoL mrg₁ dest src = mergeIntoL mrg₂ dest src := by
  induction src with
  | nil => intro dest; rfl
  | cons hd tl ih =>
    intro dest
    obtain ⟨k, v⟩ := hd
    have h1 : ∀ x, mrg₁ x v = mrg₂ x v := fun x => h (k, v) (by simp) x
    have h2 : ∀ kv ∈ tl, ∀ x, mrg₁ x kv.2 = mrg₂ x kv.2 :=
      fun kv hkv x => h kv (by simp [hkv]) x
    simp only [mergeIntoL, List.foldl_cons]
    rw [setKeyList_congr h1]
    exact ih h2 (setKeyList mrg₂ dest k v)

/-- The merge function is independent of the fuel, as long as the fuel is at
least the size of the right operand. -/
theorem omergeF_stable :
    ∀ f g a b, vsize b ≤ f → vsize b ≤ g → omergeF f a b = omergeF g a b := by
  intro f
  induction f using Nat.strong_induction_on with
  | _ f IH =>
    intro g a b hf hg
    have hb := vsize_pos b
    obtain ⟨f', rfl⟩ : ∃ f', f = f' + 1 := ⟨f - 1, by omega⟩
    obtain ⟨g', rfl⟩ : ∃ g', g = g' + 1 := ⟨g - 1, by omega⟩
    cases a <;> cases b <;> simp only [omergeF]
    case vmap.vmap m1 m2 =>
      have hmem : ∀ kv ∈ m2, ∀ x, omergeF f' x kv.2 = omergeF g' x kv.2 := by
        intro kv hkv x
        have hsz := vsize_le_psize_of_mem hkv
        have hb2 : vsize (Value.vmap m2) = 1 + psize m2 := by simp [vsize]
        exact IH f' (by omega) g' x kv.2 (by omega) (by omega)
      rw [mergeIntoL_congr hmem]

/-- `OmegaConf.merge` of any pairing other than mapping-with-mapping replaces
the left operand wholesale by the right operand. -/
theorem omergeVal_eq_right {a b : Value} (h : (a.isMap && b.isMap) = false) :
    omergeVal a b = b := by
  have hb := vsize_pos b
  obtain ⟨n, hn⟩ : ∃ n, vsize b = n + 1 := ⟨vsize b - 1, by omega⟩
  cases a <;> cases b <;> simp_all [Value.isMap, omergeVal, omergeF]

/-- `OmegaConf.merge` of a mapping with a mapping merges the source entries
into the destination entries key by key. -/
theorem omergeVal_map_map (m1 m2 : List (String × Value)) :
    omergeVal (.vmap m1) (.vmap m2) = .vmap (mergeIntoL omergeVal m1 m2) := by
  have h : vsize (Value.vmap m2) = psize m2 + 1 := by simp [vsize]; omega
  rw [omergeVal, h]
  simp only [omergeF]
  congr 1
  apply mergeIntoL_congr
  intro kv hkv x
  have hsz := vsize_le_psize_of_mem hkv
  exact omergeF_stable _ _ _ _ hsz le_rfl

theorem lookup_setKeyList (mrg : Value → Value → Value)
    (dest : List (String × Value)) (k' : String) (v : Value) (k : String) :
    lookup k (setKeyList mrg dest k' v) =
      if k' = k then
        (match lookup k dest with
          | some old => some (mrg old v)
          | none => some v)
      else lookup k dest := by
  induction dest with
  | nil =>
    by_cases hk : k' = k <;> simp [setKeyList, lookup, hk]
  | cons hd tl ih =>
    obtain ⟨k₀, v₀⟩ := hd
    by_cases h0 : k₀ = k'
    · subst h0
      by_cases hk : k₀ = k <;> simp [setKeyList, lookup, hk]
    · rw [show setKeyList mrg ((k₀, v₀) :: tl) k' v =
          (k₀, v₀) :: setKeyList mrg tl k' v from by rw [setKeyList, if_neg h0]]
      by_cases hk : k₀ = k
      · subst hk
        rw [lookup, if_pos rfl, lookup, if_pos rfl,
          if_neg (fun he => h0 he.symm)]
      · rw [lookup, if_neg hk, ih, lookup, if_neg hk]

theorem keys_setKeyList (mrg : Value → Value → Value)
    (dest : List (String × Value)) (k : String) (v : Value) :
    keys (setKeyList mrg dest k v) =
      if k ∈ keys dest then keys dest else keys dest ++ [k] := by
  induction dest with
  | nil => simp [setKeyList, keys_nil, keys_cons]
  | cons hd tl ih =>
    obtain ⟨k₀, v₀⟩ := hd
    by_cases h0 : k₀ = k
    · subst h0
      rw [show setKeyList mrg ((k₀, v₀) :: tl) k₀ v = (k₀, mrg v₀ v) :: tl from by
        rw [setKeyList, if_pos rfl]]
      simp [keys_cons]
    · rw [show setKeyList mrg ((k₀, v₀) :: tl) k v = (k₀, v₀) :: setKeyList mrg tl k v from by
        rw [setKeyList, if_neg h0]]
      rw [keys_cons, keys_cons, ih]
      by_cases hmem : k ∈ keys tl
      · simp [hmem, List.mem_cons, Ne.symm h0]
      · have hk : ¬(k = k₀) := fun he => h0 he.symm
        simp [hmem, List.mem_cons, hk]

theorem nodup_keys_setKeyList (mrg : Value → Value → Value)
    {dest : List (String × Value)} (h : (keys dest).Nodup) (k : String) (v : Value) :
    (keys (setKeyList mrg dest k v)).Nodup := by
  rw [keys_setKeyList]
  by_cases hmem : k ∈ keys dest
  · simpa [hmem] using h
  · simpa [hmem] using List.Nodup.append h (List.nodup_singleton k)
      (by simpa using fun h' => hmem h')

theorem nodup_keys_mergeIntoL (mrg : Value → Value → Value)
    {dest : List (String × Value)} (src : List (String × Value))
    (h : (keys dest).Nodup) : (keys (mergeIntoL mrg dest src)).Nodup := by
  induction src generalizing dest with
  | nil => exact h
  | cons hd tl ih =>
    obtain ⟨k₀, v₀⟩ := hd
    exact ih (nodup_keys_setKeyList mrg h k₀ v₀)

/-- Per-key behaviour of the source-into-destination merge loop, for a source
mapping with unique keys: a key present in both is merged recursively, a key
present in one survives, in particular a source-only key is inserted. -/
theorem lookup_mergeIntoL (mrg : Value → Value → Value)
    (dest src : List (String × Value)) (h : (keys src).Nodup) (k : String) :
    lookup k (mergeIntoL mrg dest src) =
      mergeLook mrg (lookup k dest) (lookup k src) := by
  induction src generalizing dest with
  | nil =>
    cases hl : lookup k dest <;> simp [mergeIntoL, lookup, mergeLook, hl]
  | cons hd tl ih =>
    obtain ⟨k₀, v₀⟩ := hd
    rw [keys_cons, List.nodup_cons] at h
    have hstep : mergeIntoL mrg dest ((k₀, v₀) :: tl) =
        mergeIntoL mrg (setKeyList mrg dest k₀ v₀) tl := rfl
    rw [hstep, ih _ h.2]
    by_cases hk : k₀ = k
    · subst hk
      have htl : lookup k₀ tl = none := lookup_eq_none_of_not_mem h.1
      rw [lookup_setKeyList, if_pos rfl, lookup, if_pos rfl, htl]
      cases hl : lookup k₀ dest <;> simp [mergeLook, hl]
    · rw [lookup_setKeyList, if_neg hk, lookup, if_neg hk]

/-! ### Path resolution (`HamiltonComposer._resolve_config_path`)

Filesystem paths are modelled as an absolute flag plus a component list; paths
are taken already normalised (no `..` segments, no symlinks), so `Path.resolve()`
on an existing absolute path is the identity.  The filesystem itself is
abstracted to the set of existing absolute paths (`.exists()` is the only probe
the resolver performs), together with the current working directory and the
result of `get_git_root(raise_error=False)` (which is `None` outside a git
work tree — the swallowed soft failure). -/

/-- A filesystem path: absolute flag plus components (`pathlib.Path`). -/
structure PurePath where
  absolute : Bool
  parts : List String
deriving DecidableEq, Repr

/-- `base.joinpath(rel)` for an absolute base directory (given by its
components) and a relative path. -/
def joinParts (base : List String) (rel : PurePath) : PurePath :=
  ⟨true, base ++ rel.parts⟩

/-- The observable filesystem environment of `_resolve_config_path`:
the existing absolute paths, `Path.cwd()`, and `get_git_root(raise_error=False)`. -/
structure FsEnv where
  existing : List (List String)
  cwd : List String
  gitRoot : Option (List String)
deriving DecidableEq, Repr

/-- `path.exists()` — only absolute paths are probed by the resolver. -/
def pathExists (fs : FsEnv) (p : PurePath) : Bool :=
  p.absolute && fs.existing.contains p.parts

/-- The two `FileNotFoundError`s of `_resolve_config_path`, carrying the path
value interpolated into the message. -/
inductive ResolveError where
  | absentAbsolute (p : PurePath)
  | notFound (p : PurePath)
deriving DecidableEq, Repr

/-- Rendering of a path as it appears in an error message. -/
def renderPath (p : PurePath) : String :=
  (if p.absolute then "/" else "") ++ String.intercalate "/" p.parts

/-- The f-string messages of the two `FileNotFoundError`s. -/
def resolveErrorMessage : ResolveError → String
  | .absentAbsolute p => "Configuration path '" ++ renderPath p ++ "' does not exist."
  | .notFound p =>
      "Configuration path '" ++ renderPath p ++
        "' not found in the current working directory or git root. " ++
        "Consider using an absolute path."

/-- The upward-walk loop of `_resolve_config_path` on the reversed component
list of the current directory: `while current_dir != current_dir.parent`
(i.e. while the component list is non-empty; the root itself has
`parent == self` and therefore exits the loop), probe
`current_dir.joinpath(path)`, else move to the parent (drop the last
component). -/
def searchUpAux (fs : FsEnv) (rel : PurePath) : List String → Option PurePath
  | [] => none
  | c :: rest =>
    let candidate := joinParts (c :: rest).reverse rel
    if pathExists fs candidate then some candidate else searchUpAux fs rel rest

/-- The `search_recursive` upward walk starting at a directory. -/
def searchUp (fs : FsEnv) (cur : List String) (rel : PurePath) : Option PurePath :=
  searchUpAux fs rel cur.reverse

/-- The ancestor directories visited by the upward walk, outermost first on the
reversed component list: the directory itself, its parent, …, stopping strictly
above the filesystem root. -/
def ancestorsAux : List String → List (List String)
  | [] => []
  | c :: rest => (c :: rest).reverse :: ancestorsAux rest

/-- Ancestor directories of a directory that lie strictly below the filesystem
root (the root `[]` is not included), from the directory upward. -/
def belowRootAncestors (cur : List String) : List (List String) :=
  ancestorsAux cur.reverse

/-- `HamiltonComposer._resolve_config_path(initial_path, search_git_root,
search_recursive)`: `None` passes through; an absolute path must exist; a
relative path is probed against the current working directory, then the git
root (when enabled and available), then the recursive upward walk (when
enabled); otherwise the `FileNotFoundError` naming the original relative path
is raised. -/
def resolveConfigPath (fs : FsEnv) (initialPath : Option PurePath)
    (searchGitRoot searchRecursive : Bool) : Except ResolveError (Option PurePath) :=
  match initialPath with
  | none => .ok none
  | some path =>
    if path.absolute then
      if pathExists fs path then .ok (some path) else .error (.absentAbsolute path)
    else
      let localPath := joinParts fs.cwd path
      if pathExists fs localPath then .ok (some localPath)
      else
        let gitResult : Option PurePath :=
          if searchGitRoot then
            match fs.gitRoot with
            | some g =>
              let gitPath := joinParts g path
              if pathExists fs gitPath then some gitPath else none
            | none => none
          else none
        match gitResult with
        | some gitPath => .ok (some gitPath)
        | none =>
          let recResult := if searchRecursive then searchUp fs fs.cwd path else none
          match recResult with
          | some candidate => .ok (some candidate)
          | none => .error (.notFound path)

/-- The upward walk returns the first existing candidate among the
strictly-below-root ancestor directories joined with the location. -/
theorem searchUp_eq_find (fs : FsEnv) (cur : List String) (rel : PurePath) :
    searchUp fs cur rel =
      ((belowRootAncestors cur).map (fun a => joinParts a rel)).find?
        (fun c => pathExists fs c) := by
  rw [searchUp, belowRootAncestors]
  induction cur.reverse with
  | nil => rfl
  | cons c rest ih =>
    rw [searchUpAux, ancestorsAux, List.map_cons, List.find?_cons]
    cases hex : pathExists fs (joinParts (c :: rest).reverse rel)
    · simp only [hex, Bool.false_eq_true, if_false]
      exact ih
    · simp only [hex, if_true]

/-! ### Directory/file tree loading (`HamiltonComposer._load_config_from_path`)

A file on disk is modelled by the two observations the loader can make of it:
the outcome of `OmegaConf.load(child)` (a parsed container, or a raised
exception) and the outcome of `yaml.safe_load` on the raw text (used by the
two recovery paths).  A directory is a list of its entries in the order the
loader iterates them (`sorted(path.iterdir(), key=lambda item: item.name)` —
the list models that name-sorted iteration; names of siblings are distinct on a
real filesystem). -/

/-- Byte-wise prefix test on character lists. -/
def isPrefixChars : List Char → List Char → Bool
  | [], _ => true
  | _ :: _, [] => false
  | a :: as, b :: bs => a = b && isPrefixChars as bs

/-- Substring test on character lists (Python `needle in haystack`). -/
def containsSub (needle : List Char) : List Char → Bool
  | [] => isPrefixChars needle []
  | c :: rest => isPrefixChars needle (c :: rest) || containsSub needle rest

/-- Python `needle in hay` on strings. -/
def strContains (hay needle : String) : Bool := containsSub needle.data hay.data

/-- The exception classes distinguishable by the handler
`except (OSError, OmegaConfBaseException)` in `_load_config_from_path`:
`osError` (the `IOError("Invalid loaded object type: ...")` of `OmegaConf.load`
and any other I/O error) and `omegaconfError` (`OmegaConfBaseException`
subclasses) are caught; an exception of any other class — notably
`yaml.YAMLError` raised by the YAML tokenizer on malformed input, which is
neither an `OSError` nor an `OmegaConfBaseException` — is not caught and
propagates unchanged. -/
inductive PyExc where
  | osError (msg : String)
  | omegaconfError (msg : String)
  | otherError (msg : String)
deriving DecidableEq, Repr

/-- Membership in the `except (OSError, OmegaConfBaseException)` tuple. -/
def PyExc.isCaught : PyExc → Bool
  | .osError _ => true
  | .omegaconfError _ => true
  | .otherError _ => false

/-- `isinstance(exc, OSError) and "Invalid loaded object type" in str(exc)` —
the recognized signal that the parsed document's top-level object type was
invalid for the structured object model. -/
def PyExc.isInvalidTypeOSError : PyExc → Bool
  | .osError msg => strContains msg "Invalid loaded object type"
  | _ => false

/-- The loader's observations of one file on disk: the outcome of
`OmegaConf.load(child)` (already taken through
`OmegaConf.to_container(..., resolve=False)` when it succeeds) and the value of
`yaml.safe_load` on the raw file content. -/
structure FileModel where
  omega : Except PyExc Value
  raw : Value

/-- A directory entry: a file or a subdirectory, with the children of a
directory listed in the loader's (name-sorted) iteration order. -/
inductive Entry where
  | file (name : String) (fm : FileModel)
  | dir (name : String) (children : List Entry)

/-- The filesystem name of an entry (`child.name`). -/
def entryName : Entry → String
  | .file n _ => n
  | .dir n _ => n

/-- Index of the last occurrence of a character, if any. -/
def lastIndexOf (c : Char) : List Char → Option Nat
  | [] => none
  | x :: rest =>
    match lastIndexOf c rest with
    | some i => some (i + 1)
    | none => if x = c then some 0 else none

/-- `pathlib.PurePath.stem`: the file name with its last suffix removed; a dot
at position 0 or at the very end does not start a suffix. -/
def stem (name : String) : String :=
  let cs := name.data
  match lastIndexOf '.' cs with
  | some i => if 0 < i ∧ i + 1 < cs.length then String.mk (cs.take i) else name
  | none => name

/-- The mapping key an entry produces: a subdirectory's base name, or a file's
name with the extension stripped. -/
def derivedKey : Entry → String
  | .file n _ => stem n
  | .dir n _ => n

/-- The path of a child inside a directory. -/
def childPath (p : PurePath) (name : String) : PurePath :=
  ⟨p.absolute, p.parts ++ [name]⟩

/-- The errors `_load_config_from_path` can produce: the duplicate-key
`ValueError` naming the colliding key and the directory being loaded, the
`ValueError("Failed to load configuration file '<child>'.")`, an exception that
the handler does not catch and that propagates unchanged, and the final
`FileNotFoundError` for a path that is neither file nor directory. -/
inductive LoadError where
  | duplicateKey (key : String) (dir : PurePath)
  | invalidFormat (path : PurePath)
  | uncaught (e : PyExc)
  | missingPath (p : PurePath)

/-- Processing of one file during a directory load (the `child.is_file()`
branch): on a caught load failure with the recognized invalid-top-level-type
signal, fall back to the plain-YAML value of the raw text; on any other caught
failure, fail with the `ValueError` naming the file; on an uncaught exception,
propagate it; on success, apply the single-key-null unwrapping heuristic —
when the parsed container is a mapping with exactly one key whose value is
null and the raw text re-parses to a non-container, the scalar is used. -/
def fileInDir (childP : PurePath) (fm : FileModel) : Except LoadError Value :=
  match fm.omega with
  | .error exc =>
    if exc.isCaught then
      if exc.isInvalidTypeOSError then .ok fm.raw
      else .error (.invalidFormat childP)
    else .error (.uncaught exc)
  | .ok container =>
    match container with
    | .vmap [(k, .vnull)] =>
      if fm.raw.isMap || fm.raw.isSeq then .ok (.vmap [(k, .vnull)])
      else .ok fm.raw
    | _ => .ok container

/-- The accumulation loop of the `path.is_dir()` branch over the (precomputed)
per-child results, in iteration order: check the derived key against the keys
accumulated so far (the duplicate check happens before the child's own load
result is consulted, as in the source, where the check precedes the load),
then surface the child's error or append its value. -/
def dirFold (p : PurePath) :
    List (String × Value) → List (String × Except LoadError Value) → Except LoadError Value
  | acc, [] => .ok (.vmap acc)
  | acc, (k, res) :: rest =>
    if k ∈ keys acc then .error (.duplicateKey k p)
    else
      match res with
      | .error e => .error e
      | .ok v => dirFold p (acc ++ [(k, v)]) rest

mutual
/-- `_load_config_from_path` on an entry located at the given path: a file is
processed by `fileInDir`; a directory folds its children's keys and results in
iteration order starting from the empty accumulator. -/
def loadEntryAt : PurePath → Entry → Except LoadError Value
  | p, .file _ fm => fileInDir p fm
  | p, .dir _ cs => dirFold p [] (childInfos p cs)

/-- Derived key and load result of each child of a directory, in iteration
order. -/
def childInfos : PurePath → List Entry → List (String × Except LoadError Value)
  | _, [] => []
  | p, c :: cs => (derivedKey c, loadEntryAt (childPath p (entryName c)) c) :: childInfos p cs
end

/-- The directory branch of `_load_config_from_path` applied to a directory's
child list. -/
def loadDir (p : PurePath) (cs : List Entry) : Except LoadError Value :=
  dirFold p [] (childInfos p cs)

/-- The `path.is_file()` branch of `_load_config_from_path` (the single-file
entry point): a caught failure becomes the `ValueError` naming the file, an
uncaught one propagates; no fallback and no unwrapping heuristic apply here. -/
def loadTopFile (p : PurePath) (fm : FileModel) : Except LoadError Value :=
  match fm.omega with
  | .ok v => .ok v
  | .error exc => if exc.isCaught then .error (.invalidFormat p) else .error (.uncaught exc)

/-! ### Deprecated alias handling (`config_file` / `filepath`)

The deprecated keyword's default is the `_MISSING` sentinel, distinct from
`None`; the outer `Option` below is `some v` exactly when the caller passed the
deprecated keyword (with value `v`, itself an optional path value).  The
returned boolean records whether the `DeprecationWarning` was emitted.  The
path values are compared with Python `!=`, modelled by decidable equality on an
arbitrary value type. -/

/-- Lines 60–71 of `composer.py` (`HamiltonComposer.__init__`): handling of
`config_path` versus the deprecated `config_file`. -/
def initResolveAlias {α : Type} [DecidableEq α] (configPath : Option α)
    (configFile : Option (Option α)) : Except String (Option α × Bool) :=
  match configFile with
  | none => .ok (configPath, false)
  | some v =>
    if configPath ≠ none ∧ configPath ≠ v then
      .error ("Both 'config_path' and the deprecated 'config_file' were provided. " ++
        "Please supply only 'config_path'.")
    else .ok (v, true)

/-- Lines 138–148 of `composer.py` (`HamiltonComposer.load_config`): handling
of `path` versus the deprecated `filepath`. -/
def loadResolveAlias {α : Type} [DecidableEq α] (path : Option α)
    (filepath : Option (Option α)) : Except String (Option α × Bool) :=
  match filepath with
  | none => .ok (path, false)
  | some v =>
    if path ≠ none ∧ path ≠ v then
      .error ("Both 'path' and the deprecated 'filepath' were provided. " ++
        "Please supply only 'path'.")
    else .ok (v, true)

/-! ## Claim theorems -/

theorem lookup_setAssoc (m : List (String × Value)) (k' : String) (v : Value)
    (k : String) :
    lookup k (setAssoc m k' v) = if k' = k then some v else lookup k m := by
  induction m with
  | nil => by_cases hk : k' = k <;> simp [setAssoc, lookup, hk]
  | cons hd tl ih =>
    obtain ⟨k₀, v₀⟩ := hd
    by_cases h0 : k₀ = k'
    · subst h0
      by_cases hk : k₀ = k <;> simp [setAssoc, lookup, hk]
    · rw [show setAssoc ((k₀, v₀) :: tl) k' v = (k₀, v₀) :: setAssoc tl k' v from by
        rw [setAssoc, if_neg h0]]
      by_cases hk : k₀ = k
      · subst hk
        rw [lookup, if_pos rfl, if_neg (fun he => h0 he.symm), lookup, if_pos rfl]
      · rw [lookup, if_neg hk, ih, lookup, if_neg hk]

/-- Per-key behaviour of a successful struct-mode merge of a unique-keyed
source into a destination: a source key ends up bound to the converted source
value (and names a schema field), and a key absent from the source keeps its
destination binding. -/
theorem structMergeLoop_lookup (s : Schema) :
    ∀ (src dest M : List (String × Value)), structMergeLoop s dest src = .ok M →
      (keys src).Nodup → ∀ k : String,
      (∀ v, lookup k src = some v →
        ∃ t, schemaFieldType s k = some t ∧ lookup k M = convertTo t v) ∧
      (lookup k src = none → lookup k M = lookup k dest) := by
  intro src
  induction src with
  | nil =>
    intro dest M hok _ k
    simp only [structMergeLoop, Except.ok.injEq] at hok
    subst hok
    exact ⟨fun v hv => by simp [lookup] at hv, fun _ => rfl⟩
  | cons hd rest ih =>
    intro dest M hok hnd k
    obtain ⟨k₀, v₀⟩ := hd
    simp only [structMergeLoop] at hok
    cases hft : schemaFieldType s k₀ with
    | none => simp [hft] at hok
    | some t =>
      simp only [hft] at hok
      cases hcv : convertTo t v₀ with
      | none => simp [hcv] at hok
      | some v₀' =>
        simp only [hcv] at hok
        rw [keys_cons, List.nodup_cons] at hnd
        have IH := ih (setAssoc dest k₀ v₀') M hok hnd.2
        by_cases hk : k₀ = k
        · subst hk
          refine ⟨fun v hv => ?_, fun hnone => ?_⟩
          · rw [lookup, if_pos rfl] at hv
            injection hv with hv
            subst hv
            refine ⟨t, hft, ?_⟩
            have hrest : lookup k₀ rest = none := lookup_eq_none_of_not_mem hnd.1
            rw [(IH k₀).2 hrest, lookup_setAssoc, if_pos rfl, hcv]
          · rw [lookup, if_pos rfl] at hnone
            cases hnone
        · refine ⟨fun v hv => ?_, fun hnone => ?_⟩
          · rw [lookup, if_neg hk] at hv
            exact (IH k).1 v hv
          · rw [lookup, if_neg hk] at hnone
            rw [(IH k).2 hnone, lookup_setAssoc, if_neg hk]

/-- C1: counterexample — with the schema `{x: int = 0}` and the file-loaded
tree `{"x": "hello"}` (no overrides), `load_config` does not let the file
value win over the schema default: the struct-mode merge of line 163 raises a
ValidationError for `x` instead of composing a result, so the claimed
universal three-way precedence fails on the code. -/
theorem c1_counterexample :
    loadConfigTrees (some ⟨[⟨"x", .tInt, .vint 0⟩]⟩)
        (.vmap [("x", .vstr "hello")]) (.vmap []) =
      .error (.validationError "x" (.vstr "hello")) ∧
    loadConfigTrees (some ⟨[⟨"x", .tInt, .vint 0⟩]⟩)
        (.vmap [("x", .vstr "hello")]) (.vmap []) ≠
      .ok (.vmap [("x", .vstr "hello")]) :=
  ⟨rfl, fun h => by
    rw [show loadConfigTrees (some ⟨[⟨"x", .tInt, .vint 0⟩]⟩)
        (.vmap [("x", .vstr "hello")]) (.vmap []) =
      .error (.validationError "x" (.vstr "hello")) from rfl] at h
    exact Except.noConfusion h⟩

/-- C1 (amended): `load_config` composes with three-way precedence on every
input where the schema merge succeeds, and unconditionally without a schema —
any pairing other than mapping-with-mapping is replaced wholesale by the right
operand; mapping-with-mapping merges key by key recursively; without a schema
the per-key result is the file value overridden by the override value; with a
schema, whenever the struct-mode merge of line 163 returns a result, a key
bound by the composed tree ends up at its composed (file-overridden-by-
override) value as converted by its declared field type, and a key the
composed tree does not bind keeps its schema default — while a composed key
outside the schema or a value its field type cannot convert makes
`load_config` raise instead. -/
theorem c1_merge_precedence :
    (∀ a b : Value, (a.isMap && b.isMap) = false → omergeVal a b = b) ∧
    (∀ (m1 m2 : List (String × Value)) (k : String), NodupKeys m2 →
      lookup k (mapEntries (omergeVal (.vmap m1) (.vmap m2))) =
        mergeLook omergeVal (lookup k m1) (lookup k m2)) ∧
    (∀ (fm pm : List (String × Value)) (k : String), NodupKeys pm →
      ∃ M, loadConfigTrees none (.vmap fm) (.vmap pm) = .ok (.vmap M) ∧
        lookup k M = mergeLook omergeVal (lookup k fm) (lookup k pm)) ∧
    (∀ (s : Schema) (fm pm M : List (String × Value)) (k : String) (v : Value),
      NodupKeys fm → NodupKeys pm →
      loadConfigTrees (some s) (.vmap fm) (.vmap pm) = .ok (.vmap M) →
      mergeLook omergeVal (lookup k fm) (lookup k pm) = some v →
      ∃ t, schemaFieldType s k = some t ∧ lookup k M = convertTo t v) ∧
    (∀ (s : Schema) (fm pm M : List (String × Value)) (k : String),
      NodupKeys fm → NodupKeys pm →
      loadConfigTrees (some s) (.vmap fm) (.vmap pm) = .ok (.vmap M) →
      mergeLook omergeVal (lookup k fm) (lookup k pm) = none →
      lookup k M = lookup k (structuredDefaults s)) := by
  have hstruct : ∀ (s : Schema) (fm pm M : List (String × Value)),
      NodupKeys fm →
      loadConfigTrees (some s) (.vmap fm) (.vmap pm) = .ok (.vmap M) →
      structMergeLoop s (structuredDefaults s) (mergeIntoL omergeVal fm pm) = .ok M := by
    intro s fm pm M hf hload
    simp only [loadConfigTrees, omergeVal_map_map, mapEntries] at hload
    cases hsm : structMergeLoop s (structuredDefaults s) (mergeIntoL omergeVal fm pm) with
    | error e => rw [hsm] at hload; simp [Except.map] at hload
    | ok M₀ =>
      rw [hsm] at hload
      simp only [Except.map, Except.ok.injEq, Value.vmap.injEq] at hload
      subst hload
      rfl
  refine ⟨fun a b h => omergeVal_eq_right h, fun m1 m2 k h => ?_,
    fun fm pm k hp => ?_, fun s fm pm M k v hf hp hload hmerge => ?_,
    fun s fm pm M k hf hp hload hmerge => ?_⟩
  · rw [omergeVal_map_map]
    simp only [mapEntries]
    exact lookup_mergeIntoL _ _ _ h k
  · refine ⟨mergeIntoL omergeVal fm pm, ?_, ?_⟩
    · simp only [loadConfigTrees, omergeVal_map_map]
    · exact lookup_mergeIntoL _ _ _ hp k
  · have hsm := hstruct s fm pm M hf hload
    have hC : lookup k (mergeIntoL omergeVal fm pm) =
        mergeLook omergeVal (lookup k fm) (lookup k pm) :=
      lookup_mergeIntoL _ _ _ hp k
    exact (structMergeLoop_lookup s _ _ M hsm (nodup_keys_mergeIntoL _ pm hf) k).1 v
      (hC.trans hmerge)
  · have hsm := hstruct s fm pm M hf hload
    have hC : lookup k (mergeIntoL omergeVal fm pm) =
        mergeLook omergeVal (lookup k fm) (lookup k pm) :=
      lookup_mergeIntoL _ _ _ hp k
    exact (structMergeLoop_lookup s _ _ M hsm (nodup_keys_mergeIntoL _ pm hf) k).2
      (hC.trans hmerge)

/-- C1 witness: with schema `{x: int = 0, y: str = "d"}`, file tree
`{"x": 1}` and override tree `{"x": 2}`, the successful composition binds `x`
to the override value `2` (override wins over file and default) and keeps the
schema default for `y`. -/
theorem c1_merge_precedence_witness :
    lookup "x" [("x", Value.vint 2), ("y", Value.vstr "d")] = some (.vint 2) ∧
    lookup "y" [("x", Value.vint 2), ("y", Value.vstr "d")] = some (.vstr "d") := by
  obtain ⟨t, hft, hlk⟩ := c1_merge_precedence.2.2.2.1
    ⟨[⟨"x", .tInt, .vint 0⟩, ⟨"y", .tStr, .vstr "d"⟩]⟩
    [("x", .vint 1)] [("x", .vint 2)] [("x", Value.vint 2), ("y", Value.vstr "d")]
    "x" (.vint 2) (by decide) (by decide) rfl rfl
  have hdef := c1_merge_precedence.2.2.2.2
    ⟨[⟨"x", .tInt, .vint 0⟩, ⟨"y", .tStr, .vstr "d"⟩]⟩
    [("x", .vint 1)] [("x", .vint 2)] [("x", Value.vint 2), ("y", Value.vstr "d")]
    "y" (by decide) (by decide) rfl rfl
  have ht : t = FieldType.tInt := by
    have h2 : some t = some FieldType.tInt := hft.symm.trans rfl
    injection h2
  subst ht
  exact ⟨hlk.trans rfl, hdef.trans rfl⟩

/-- C2: counterexample — with base `{"a": 1, "b": {"c": 2}}` and overrides
`["b.c=3", "+d=4"]`, `load_config` yields `{"a": 1, "b": {"c": 3}, "+d": 4}`,
not the claimed `{"a": 1, "b": {"c": 3}, "d": 4}`: the leading `+` is not
stripped, it stays part of the stored key. -/
theorem c2_counterexample :
    loadConfigNoSchema (.vmap [("a", .vint 1), ("b", .vmap [("c", .vint 2)])])
        ["b.c=3", "+d=4"] =
      .vmap [("a", .vint 1), ("b", .vmap [("c", .vint 3)]), ("+d", .vint 4)] ∧
    loadConfigNoSchema (.vmap [("a", .vint 1), ("b", .vmap [("c", .vint 2)])])
        ["b.c=3", "+d=4"] ≠
      .vmap [("a", .vint 1), ("b", .vmap [("c", .vint 3)]), ("d", .vint 4)] := by
  constructor
  · rfl
  · rw [show loadConfigNoSchema (.vmap [("a", .vint 1), ("b", .vmap [("c", .vint 2)])])
        ["b.c=3", "+d=4"] =
      .vmap [("a", .vint 1), ("b", .vmap [("c", .vint 3)]), ("+d", .vint 4)] from rfl]
    simp

/-- C2 (amended): calling `load_config` with no schema on the base tree
`{"a": 1, "b": {"c": 2}}` with override strings `["b.c=3", "+d=4"]` returns
exactly `{"a": 1, "b": {"c": 3}, "+d": 4}` — the leading `+` is not an
insert-new-key marker, it becomes part of the stored key. -/
theorem c2_amended :
    loadConfigNoSchema (.vmap [("a", .vint 1), ("b", .vmap [("c", .vint 2)])])
        ["b.c=3", "+d=4"] =
      .vmap [("a", .vint 1), ("b", .vmap [("c", .vint 3)]), ("+d", .vint 4)] := rfl

/-- C3: counterexample — the override `d=4` (no `+`) whose key is absent from
the base `{"a": 1}` does not fail at merge time: `load_config` succeeds and
silently inserts the key. -/
theorem c3_counterexample :
    loadConfigNoSchema (.vmap [("a", .vint 1)]) ["d=4"] =
      .vmap [("a", .vint 1), ("d", .vint 4)] := rfl

/-- C3 (amended): an override whose key path is not present in the base tree
is silently inserted by the merge — for every base mapping and every override
tree with unique keys, a key absent from the base ends up bound to the
override's value for it (no MissingKey error exists in this merge path). -/
theorem c3_amended :
    ∀ (m p : List (String × Value)) (k : String), NodupKeys p →
      lookup k m = none →
      lookup k (mapEntries (omergeVal (.vmap m) (.vmap p))) = lookup k p := by
  intro m p k hp hm
  rw [omergeVal_map_map]
  simp only [mapEntries]
  rw [lookup_mergeIntoL _ _ _ hp k, hm]
  rfl

/-- C3 witness: the amended statement evaluated on the counterexample's data —
the new key `d` is inserted with the override value `4`. -/
theorem c3_amended_witness :
    lookup "d" (mapEntries (omergeVal (.vmap [("a", .vint 1)])
      (.vmap [("d", .vint 4)]))) = some (.vint 4) := by
  have h := c3_amended [("a", .vint 1)] [("d", .vint 4)] "d" (by decide) rfl
  rw [h]
  rfl

/-- C4: for an absolute requested location, resolution ignores both search
flags; the path is returned unchanged when it exists (as file or directory)
and a NotFound error is raised when it does not. -/
theorem c4_absolute_resolution :
    ∀ (fs : FsEnv) (p : PurePath) (g r g' r' : Bool), p.absolute = true →
      resolveConfigPath fs (some p) g r = resolveConfigPath fs (some p) g' r' ∧
      (pathExists fs p = true →
        resolveConfigPath fs (some p) g r = .ok (some p)) ∧
      (pathExists fs p = false →
        resolveConfigPath fs (some p) g r = .error (.absentAbsolute p)) := by
  intro fs p g r g' r' habs
  simp only [resolveConfigPath, habs, if_true]
  cases hex : pathExists fs p <;> simp [hex]

/-- C4 witness: an existing absolute path is returned unchanged with both
search flags set. -/
theorem c4_absolute_resolution_witness :
    resolveConfigPath ⟨[["etc", "conf"]], ["home"], none⟩
        (some ⟨true, ["etc", "conf"]⟩) true true =
      .ok (some ⟨true, ["etc", "conf"]⟩) :=
  (c4_absolute_resolution ⟨[["etc", "conf"]], ["home"], none⟩
    ⟨true, ["etc", "conf"]⟩ true true false false rfl).2.1 rfl

/-- Every ancestor directory visited by the upward walk is strictly below the
filesystem root (the root's empty component list never occurs). -/
theorem root_not_mem_ancestorsAux (l : List String) : [] ∉ ancestorsAux l := by
  induction l with
  | nil => simp [ancestorsAux]
  | cons c rest ih =>
    rw [ancestorsAux]
    intro hmem
    rcases List.mem_cons.mp hmem with h | h
    · exact absurd h.symm (by simp)
    · exact ih h

/-- Modelled from the spec claim of C8 (the probe sequence the claim
describes): the first existing `<ancestor>/<location>` candidate over every
ancestor level of the current working directory, the filesystem root
included. -/
def claimedRecursiveSearch (fs : FsEnv) (cur : List String) (rel : PurePath) :
    Option PurePath :=
  ((belowRootAncestors cur ++ [[]]).map (fun a => joinParts a rel)).find?
    (fun c => pathExists fs c)

/-- C8: counterexample — with the current working directory `/a`, the location
`cfg` existing only at the filesystem root (`/cfg` exists), and
`search_recursive` set, the claimed probe sequence finds `/cfg`, but the code
raises NotFound: the `while current_dir != current_dir.parent` loop exits upon
reaching the root without probing `<root>/<location>`. -/
theorem c8_counterexample :
    claimedRecursiveSearch ⟨[["cfg"]], ["a"], none⟩ ["a"] ⟨false, ["cfg"]⟩ =
      some ⟨true, ["cfg"]⟩ ∧
    resolveConfigPath ⟨[["cfg"]], ["a"], none⟩ (some ⟨false, ["cfg"]⟩) false true =
      .error (.notFound ⟨false, ["cfg"]⟩) := by
  exact ⟨rfl, rfl⟩

/-- C8 (amended): for a relative location not found locally (and not found via
the git-root strategy when it is enabled), `search_recursive` probes
`<ancestor>/<location>` at every ancestor level of the current working
directory in upward order, including intermediate levels, but stopping strictly
below the filesystem root — the root itself is never probed — and returns the
first existing candidate as an absolute path, raising NotFound otherwise. -/
theorem c8_recursive_walk :
    ∀ (fs : FsEnv) (p : PurePath) (g : Bool), p.absolute = false →
      pathExists fs (joinParts fs.cwd p) = false →
      (g = true → ∀ gr, fs.gitRoot = some gr →
        pathExists fs (joinParts gr p) = false) →
      (resolveConfigPath fs (some p) g true =
        match ((belowRootAncestors fs.cwd).map (fun a => joinParts a p)).find?
            (fun c => pathExists fs c) with
          | some c => .ok (some c)
          | none => .error (.notFound p)) ∧
      [] ∉ belowRootAncestors fs.cwd := by
  intro fs p g habs hlocal hgit
  refine ⟨?_, root_not_mem_ancestorsAux _⟩
  simp only [resolveConfigPath, habs, Bool.false_eq_true, if_false, hlocal]
  have hgitnone :
      (if g = true then
        match fs.gitRoot with
        | some gr =>
          if pathExists fs (joinParts gr p) = true then some (joinParts gr p) else none
        | none => none
      else none) = (none : Option PurePath) := by
    cases g
    · simp
    · simp only [if_pos rfl]
      cases hgr : fs.gitRoot with
      | none => rfl
      | some gr => simp [hgit rfl gr hgr]
  rw [← searchUp_eq_find]
  cases hfind : searchUp fs fs.cwd p <;>
    simp [hgitnone, hfind]

/-- C8 witness: the amended walk finds a location present at an intermediate
ancestor level (neither the current directory nor the root). -/
theorem c8_recursive_walk_witness :
    resolveConfigPath ⟨[["a", "cfg"]], ["a", "b", "c"], none⟩
        (some ⟨false, ["cfg"]⟩) false true =
      .ok (some ⟨true, ["a", "cfg"]⟩) := by
  have h := (c8_recursive_walk ⟨[["a", "cfg"]], ["a", "b", "c"], none⟩
    ⟨false, ["cfg"]⟩ false rfl rfl (by intro h; cases h)).1
  rw [h]
  rfl

/-- C9: a relative location not found by any enabled strategy raises a
NotFound error carrying the original relative location (not a cwd-joined
version of it), and the message interpolates exactly that original location. -/
theorem c9_notfound_names_original :
    ∀ (fs : FsEnv) (p : PurePath) (g r : Bool), p.absolute = false →
      pathExists fs (joinParts fs.cwd p) = false →
      (g = true → ∀ gr, fs.gitRoot = some gr →
        pathExists fs (joinParts gr p) = false) →
      (r = true → searchUp fs fs.cwd p = none) →
      resolveConfigPath fs (some p) g r = .error (.notFound p) ∧
      resolveErrorMessage (.notFound p) =
        "Configuration path '" ++ renderPath p ++
          "' not found in the current working directory or git root. " ++
          "Consider using an absolute path." := by
  intro fs p g r habs hlocal hgit hrec
  refine ⟨?_, rfl⟩
  simp only [resolveConfigPath, habs, Bool.false_eq_true, if_false, hlocal]
  have hgitnone :
      (if g = true then
        match fs.gitRoot with
        | some gr =>
          if pathExists fs (joinParts gr p) = true then some (joinParts gr p) else none
        | none => none
      else none) = (none : Option PurePath) := by
    cases g
    · simp
    · simp only [if_pos rfl]
      cases hgr : fs.gitRoot with
      | none => rfl
      | some gr => simp [hgit rfl gr hgr]
  have hrecnone :
      (if r = true then searchUp fs fs.cwd p else none) = (none : Option PurePath) := by
    cases r
    · simp
    · simp [hrec rfl]
  simp [hgitnone, hrecnone]

/-- C9 witness: a relative location missing everywhere, with both search flags
enabled and a git root available, produces the NotFound error naming the
original relative location. -/
theorem c9_notfound_names_original_witness :
    resolveConfigPath ⟨[["repo"]], ["repo", "sub"], some ["repo"]⟩
        (some ⟨false, ["conf", "app.yaml"]⟩) true true =
      .error (.notFound ⟨false, ["conf", "app.yaml"]⟩) :=
  (c9_notfound_names_original ⟨[["repo"]], ["repo", "sub"], some ["repo"]⟩
    ⟨false, ["conf", "app.yaml"]⟩ true true rfl rfl
    (fun _ gr hgr => by cases hgr; rfl) (fun _ => rfl)).1

/-- The derived keys recorded by `childInfos` are the entries' derived keys. -/
theorem childInfos_keys (p : PurePath) (cs : List Entry) :
    (childInfos p cs).map Prod.fst = cs.map derivedKey := by
  induction cs with
  | nil => rfl
  | cons c rest ih => rw [childInfos, List.map_cons, List.map_cons, ih]

/-- Every element of `childInfos` records the derived key and load result of a
child of the directory. -/
theorem mem_childInfos {p : PurePath} {cs : List Entry}
    {kr : String × Except LoadError Value} (h : kr ∈ childInfos p cs) :
    ∃ c ∈ cs, kr = (derivedKey c, loadEntryAt (childPath p (entryName c)) c) := by
  induction cs with
  | nil => cases h
  | cons c rest ih =>
    rw [childInfos] at h
    rcases List.mem_cons.mp h with h | h
    · exact ⟨c, by simp, h⟩
    · obtain ⟨c', hc', he⟩ := ih h
      exact ⟨c', by simp [hc'], he⟩

/-- The accumulation loop of the directory load: when all recorded child
results are successes and the accumulated keys together with the incoming
derived keys contain a repetition, the loop fails with a duplicate-key error
naming the directory and a key that indeed occurs at least twice. -/
theorem dirFold_dup (p : PurePath) :
    ∀ (infos : List (String × Except LoadError Value)) (acc : List (String × Value)),
      (∀ kr ∈ infos, ∃ v, kr.2 = Except.ok v) →
      (keys acc).Nodup →
      ¬ (keys acc ++ infos.map Prod.fst).Nodup →
      ∃ k, dirFold p acc infos = .error (.duplicateKey k p) ∧
        2 ≤ (keys acc ++ infos.map Prod.fst).count k := by
  intro infos
  induction infos with
  | nil =>
    intro acc _ hacc hdup
    exact absurd (by simpa using hacc) hdup
  | cons hd tl ih =>
    intro acc hok hacc hdup
    obtain ⟨k₀, res⟩ := hd
    by_cases hmem : k₀ ∈ keys acc
    · refine ⟨k₀, by simp [dirFold, hmem], ?_⟩
      have h1 : 0 < (keys acc).count k₀ := List.count_pos_iff.mpr hmem
      have h2 : 0 < (((k₀, res) :: tl).map Prod.fst).count k₀ := by
        simp [List.count_cons]
      rw [List.count_append]
      omega
    · obtain ⟨v, hres⟩ := hok (k₀, res) (by simp)
      simp only at hres
      have step : dirFold p acc ((k₀, res) :: tl) = dirFold p (acc ++ [(k₀, v)]) tl := by
        simp [dirFold, hmem, hres]
      have hkeysapp : keys (acc ++ [(k₀, v)]) = keys acc ++ [k₀] := by
        simp [keys]
      have hacc' : (keys (acc ++ [(k₀, v)])).Nodup := by
        rw [hkeysapp]
        refine List.Nodup.append hacc (List.nodup_singleton k₀) ?_
        intro x hx hx'
        rw [List.mem_singleton] at hx'
        subst hx'
        exact hmem hx
      have hcomb : keys (acc ++ [(k₀, v)]) ++ tl.map Prod.fst =
          keys acc ++ ((k₀, res) :: tl).map Prod.fst := by
        rw [hkeysapp, List.map_cons, List.append_assoc]
        rfl
      obtain ⟨k, hk1, hk2⟩ := ih (acc ++ [(k₀, v)])
        (fun kr hkr => hok kr (by simp [hkr])) hacc'
        (by rw [hcomb]; exact hdup)
      exact ⟨k, step ▸ hk1, by rw [← hcomb]; exact hk2⟩

/-- C5: loading a directory in which two sibling entries derive the same key —
a subdirectory's base name or a file's extension-stripped name — fails (all
children being otherwise loadable) with a duplicate-key error identifying the
containing directory and a key that is indeed derived by two siblings. -/
theorem c5_duplicate_key :
    ∀ (p : PurePath) (cs : List Entry),
      (∀ c ∈ cs, ∃ v, loadEntryAt (childPath p (entryName c)) c = .ok v) →
      ¬ (cs.map derivedKey).Nodup →
      ∃ k, loadDir p cs = .error (.duplicateKey k p) ∧
        2 ≤ (cs.map derivedKey).count k := by
  intro p cs hok hdup
  have hkeys := childInfos_keys p cs
  have hok' : ∀ kr ∈ childInfos p cs, ∃ v, kr.2 = Except.ok v := by
    intro kr hkr
    obtain ⟨c, hc, rfl⟩ := mem_childInfos hkr
    exact hok c hc
  obtain ⟨k, h1, h2⟩ := dirFold_dup p (childInfos p cs) []
    hok' (by simp [keys_nil]) (by simpa [keys_nil, hkeys] using hdup)
  exact ⟨k, h1, by simpa [keys_nil, hkeys] using h2⟩

/-- C5 witness: a directory containing the file `foo.yaml` and a subdirectory
`foo/` (iterated in name order, `foo` before `foo.yaml`) fails with the
duplicate-key error naming a twice-derived key and the directory. -/
theorem c5_duplicate_key_witness :
    loadDir ⟨true, ["cfg"]⟩
        [.dir "foo" [], .file "foo.yaml" ⟨.ok (.vmap [("x", .vint 1)]), .vmap [("x", .vint 1)]⟩] =
      .error (.duplicateKey "foo" ⟨true, ["cfg"]⟩) ∧
    2 ≤ (([.dir "foo" [],
      .file "foo.yaml" ⟨.ok (.vmap [("x", .vint 1)]), .vmap [("x", .vint 1)]⟩] :
        List Entry).map derivedKey).count "foo" := by
  obtain ⟨k, hk, -⟩ := c5_duplicate_key ⟨true, ["cfg"]⟩
    [.dir "foo" [], .file "foo.yaml" ⟨.ok (.vmap [("x", .vint 1)]), .vmap [("x", .vint 1)]⟩]
    (by
      intro c hc
      rcases List.mem_cons.mp hc with rfl | hc
      · exact ⟨.vmap [], rfl⟩
      · rcases List.mem_cons.mp hc with rfl | hc
        · exact ⟨.vmap [("x", .vint 1)], rfl⟩
        · cases hc)
    (by decide)
  exact ⟨hk.trans (hk.symm.trans rfl), by decide⟩

/-- C6: during a directory load, a file whose structured parse yields a
mapping with exactly one key whose value is null has its value replaced by the
plain-YAML re-parse of the raw content exactly when that re-parse is a scalar
(not a mapping or sequence); any parsed container of a different shape is kept
as is. -/
theorem c6_single_key_null_unwrap :
    ∀ (p : PurePath) (k : String) (raw : Value),
      (fileInDir p ⟨.ok (.vmap [(k, .vnull)]), raw⟩ =
        .ok (if raw.isMap || raw.isSeq then .vmap [(k, .vnull)] else raw)) ∧
      (∀ container : Value, (∀ k', container ≠ .vmap [(k', .vnull)]) →
        fileInDir p ⟨.ok container, raw⟩ = .ok container) := by
  intro p k raw
  constructor
  · cases hcond : raw.isMap || raw.isSeq <;> simp [fileInDir, hcond]
  · intro container hne
    cases container with
    | vmap m =>
      match m with
      | [] => rfl
      | (k', v') :: [] =>
        cases v' with
        | vnull => exact absurd rfl (hne k')
        | vbool b => rfl
        | vint n => rfl
        | vstr s => rfl
        | vseq xs => rfl
        | vmap mm => rfl
      | (k₁, v₁) :: (k₂, v₂) :: rest => cases v₁ <;> rfl
    | vnull => rfl
    | vbool b => rfl
    | vint n => rfl
    | vstr s => rfl
    | vseq xs => rfl

/-- C6 witness: the heuristic on concrete data — a file whose structured parse
is `{"hello": null}` and whose raw text re-parses to the scalar `"hello"` is
stored as that scalar, while an ordinary one-entry mapping with a non-null
value is kept as parsed. -/
theorem c6_single_key_null_unwrap_witness :
    fileInDir ⟨true, ["cfg", "greet.yaml"]⟩
        ⟨.ok (.vmap [("hello", .vnull)]), .vstr "hello"⟩ = .ok (.vstr "hello") ∧
    fileInDir ⟨true, ["cfg", "one.yaml"]⟩
        ⟨.ok (.vmap [("a", .vint 1)]), .vmap [("a", .vint 1)]⟩ =
      .ok (.vmap [("a", .vint 1)]) := by
  constructor
  · exact (c6_single_key_null_unwrap ⟨true, ["cfg", "greet.yaml"]⟩ "hello"
      (.vstr "hello")).1
  · exact (c6_single_key_null_unwrap ⟨true, ["cfg", "one.yaml"]⟩ "x"
      (.vmap [("a", .vint 1)])).2 (.vmap [("a", .vint 1)]) (by intro k'; simp)

/-- C7: counterexample — a parser failure outside the recognized classes
(`yaml.ScannerError` from the YAML tokenizer on malformed input is neither an
`OSError` nor an `OmegaConfBaseException`, and `OmegaConf.load` does not wrap
it) escapes the `except` tuple of line 278 and propagates unchanged during a
directory load: it is fatal but is not reported as the InvalidFormat error
naming the offending file, refuting the claim's "every other parser failure is
reported as an InvalidFormat error". -/
theorem c7_counterexample :
    fileInDir ⟨true, ["cfg", "broken.yaml"]⟩
        ⟨.error (.otherError "ScannerError: mapping values are not allowed here"),
          .vnull⟩ =
      .error (.uncaught (.otherError "ScannerError: mapping values are not allowed here")) ∧
    fileInDir ⟨true, ["cfg", "broken.yaml"]⟩
        ⟨.error (.otherError "ScannerError: mapping values are not allowed here"),
          .vnull⟩ ≠
      .error (.invalidFormat ⟨true, ["cfg", "broken.yaml"]⟩) :=
  ⟨rfl, fun h => by
    rw [show fileInDir ⟨true, ["cfg", "broken.yaml"]⟩
        ⟨.error (.otherError "ScannerError: mapping values are not allowed here"),
          .vnull⟩ =
      .error (.uncaught (.otherError "ScannerError: mapping values are not allowed here"))
      from rfl] at h
    exact LoadError.noConfusion (Except.error.inj h)⟩

/-- C7 (amended): when the structured parser fails on a file during a
directory load, the plain-YAML fallback happens exactly on the recognized I/O
error signalling an invalid top-level object type; every other failure of the
classes the handler recognizes (`OSError` without the signal, or an OmegaConf
parser error) is fatal and reported as the invalid-format error naming the
offending file; a parser failure outside those classes (such as a YAML
tokenizer error) is fatal but propagates unchanged, not as InvalidFormat. -/
theorem c7_parse_failure_recovery :
    ∀ (p : PurePath) (fm : FileModel) (exc : PyExc), fm.omega = .error exc →
      (exc.isInvalidTypeOSError = true → fileInDir p fm = .ok fm.raw) ∧
      (exc.isCaught = true → exc.isInvalidTypeOSError = false →
        fileInDir p fm = .error (.invalidFormat p)) ∧
      (exc.isCaught = false → fileInDir p fm = .error (.uncaught exc)) := by
  intro p fm exc homega
  obtain ⟨om, raw⟩ := fm
  simp only at homega
  subst homega
  refine ⟨fun hinv => ?_, fun hc hninv => ?_, fun hnc => ?_⟩
  · have hcaught : exc.isCaught = true := by
      cases exc <;> simp_all [PyExc.isInvalidTypeOSError, PyExc.isCaught]
    simp [fileInDir, hcaught, hinv]
  · simp [fileInDir, hc, hninv]
  · simp [fileInDir, hnc]

/-- C7 witness: a file whose document is the bare scalar `3` — the structured
parser raises `IOError("Invalid loaded object type: int")` — falls back to the
plain-YAML value; an OmegaConf parser error becomes the invalid-format error
naming the file; an exception of an unrecognized class propagates unchanged. -/
theorem c7_parse_failure_recovery_witness :
    fileInDir ⟨true, ["cfg", "n.yaml"]⟩
        ⟨.error (.osError "Invalid loaded object type: int"), .vint 3⟩ =
      .ok (.vint 3) ∧
    fileInDir ⟨true, ["cfg", "bad.yaml"]⟩
        ⟨.error (.omegaconfError "ValidationError"), .vnull⟩ =
      .error (.invalidFormat ⟨true, ["cfg", "bad.yaml"]⟩) ∧
    fileInDir ⟨true, ["cfg", "worse.yaml"]⟩
        ⟨.error (.otherError "ScannerError"), .vnull⟩ =
      .error (.uncaught (.otherError "ScannerError")) := by
  refine ⟨?_, ?_, ?_⟩
  · exact (c7_parse_failure_recovery ⟨true, ["cfg", "n.yaml"]⟩
      ⟨.error (.osError "Invalid loaded object type: int"), .vint 3⟩ _ rfl).1 (by decide)
  · exact (c7_parse_failure_recovery ⟨true, ["cfg", "bad.yaml"]⟩
      ⟨.error (.omegaconfError "ValidationError"), .vnull⟩ _ rfl).2.1 rfl rfl
  · exact (c7_parse_failure_recovery ⟨true, ["cfg", "worse.yaml"]⟩
      ⟨.error (.otherError "ScannerError"), .vnull⟩ _ rfl).2.2 rfl

/-- C10: the deprecated aliases are internally consistent — supplying both the
current and the deprecated argument with unequal values is an error; supplying
only the deprecated one (or both with equal values) warns and resolves to the
same value the current argument alone would have produced; and `load_config`
applies the identical rule for `path` versus `filepath`. -/
theorem c10_deprecated_aliases {α : Type} [DecidableEq α] :
    (∀ (p : α) (q : Option α), some p ≠ q →
      initResolveAlias (some p) (some q) =
        .error ("Both 'config_path' and the deprecated 'config_file' were provided. " ++
          "Please supply only 'config_path'.")) ∧
    (∀ v : Option α, initResolveAlias (none : Option α) (some v) = .ok (v, true)) ∧
    (∀ p : α, initResolveAlias (some p) (some (some p)) = .ok (some p, true)) ∧
    (∀ v : Option α, initResolveAlias v none = .ok (v, false)) ∧
    (∀ (prim : Option α) (leg : Option (Option α)),
      (loadResolveAlias prim leg).toOption = (initResolveAlias prim leg).toOption) := by
  refine ⟨?_, ?_, ?_, ?_, ?_⟩
  · intro p q hne
    simp [initResolveAlias, hne]
  · intro v
    simp [initResolveAlias]
  · intro p
    simp [initResolveAlias]
  · intro v
    rfl
  · intro prim leg
    cases leg with
    | none => rfl
    | some v =>
      by_cases h : prim ≠ none ∧ prim ≠ v <;>
        simp [initResolveAlias, loadResolveAlias, h, Except.toOption]

/-- C10 witness: unequal current and deprecated values error out; a value
passed only through the deprecated keyword resolves with a warning to the same
value; the `load_config` rule agrees on both shapes. -/
theorem c10_deprecated_aliases_witness :
    initResolveAlias (some (1 : Nat)) (some (some 2)) =
      .error ("Both 'config_path' and the deprecated 'config_file' were provided. " ++
        "Please supply only 'config_path'.") ∧
    initResolveAlias (none : Option Nat) (some (some 7)) = .ok (some 7, true) ∧
    (loadResolveAlias (some (1 : Nat)) (some (some 2))).toOption =
      (initResolveAlias (some (1 : Nat)) (some (some 2))).toOption := by
  refine ⟨?_, ?_, ?_⟩
  · exact c10_deprecated_aliases.1 1 (some 2) (by decide)
  · exact c10_deprecated_aliases.2.1 (some 7)
  · exact c10_deprecated_aliases.2.2.2.2 (some 1) (some (some 2))

end HC
